import Mathlib

/-!
# Verification of `night_crawler.py` (divio/utilities)

Shallow embedding of the `NightCrawler` class from `src/night_crawler.py`.
Strings are modelled as `List Char` (`Str`).  The Python regular expressions
used by the crawler interpolate the configured term directly into the pattern;
every pattern the program builds from them consists only of fixed-width atoms
(literal characters and the `.` metacharacter, which in Python matches any
character except a newline), so patterns are modelled as lists of
fixed-width `PatChar` atoms and the scanning semantics of `re.finditer` /
`re.findall` (leftmost, non-overlapping, resuming after each match) is
implemented directly on such patterns.
-/

set_option autoImplicit false

abbrev Str := List Char

/-- A fixed-width regex atom: either a literal character or the `.`
metacharacter (any character except `'\n'`). -/
inductive PatChar where
  | lit (c : Char)
  | dot
  deriving DecidableEq, Repr

abbrev Pat := List PatChar

/-- Does one fixed-width atom match one character? `.` matches anything but a
newline, exactly as in Python (no DOTALL flag is passed anywhere). -/
def PatChar.matches1 : PatChar → Char → Bool
  | .lit c, d => c == d
  | .dot, d => d != '\n'

/-- Does the fixed-width pattern match a prefix of `cs`? -/
def matchesAt : Pat → Str → Bool
  | [], _ => true
  | _ :: _, [] => false
  | p :: ps, c :: cs => p.matches1 c && matchesAt ps cs

/-- Compilation of a term used as a regex pattern: `.` becomes the
metacharacter, every other character is literal.  This is the fragment of
Python regex syntax the program's documented usage exercises (e.g.
`--terms promotion.domain.com`); the term is interpolated unescaped. -/
def strToPat (term : Str) : Pat := term.map fun c => if c == '.' then .dot else .lit c

/-- A pattern that matches exactly the literal string `term`. -/
def litPat (term : Str) : Pat := term.map .lit

/-- All start positions (offset by `i`) at which the pattern matches,
including overlapping ones.  This is the spec-side notion of "all (possibly
overlapping) start positions"; the code-side `finditer` model below selects a
non-overlapping subset of these. -/
def occStartsAux (pat : Pat) : Str → Nat → List Nat
  | [], i => if matchesAt pat [] then [i] else []
  | c :: rest, i =>
      (if matchesAt pat (c :: rest) then [i] else []) ++ occStartsAux pat rest (i + 1)

def occStarts (pat : Pat) (cs : Str) : List Nat := occStartsAux pat cs 0

/-- How far `re.finditer` advances after a match of a fixed-width pattern:
the match width, but at least one character (Python advances past empty
matches). -/
def patAdv (pat : Pat) : Nat := max pat.length 1

/-- Leftmost non-overlapping scan, as performed by `re.finditer`: test each
position left to right; on a match record its start and resume after the
matched text.  `skip` counts the positions still covered by the previous
match, over which testing is suspended. -/
def finditerGo (pat : Pat) : Str → Nat → Nat → List Nat
  | [], i, skip => if skip == 0 && matchesAt pat [] then [i] else []
  | _ :: rest, i, skip + 1 => finditerGo pat rest (i + 1) skip
  | c :: rest, i, 0 =>
      if matchesAt pat (c :: rest) then
        i :: finditerGo pat rest (i + 1) (patAdv pat - 1)
      else
        finditerGo pat rest (i + 1) 0

/-- Start positions of the matches `re.finditer(pattern, content)` yields
(the code uses `[m.start() for m in re.finditer(unwanted_term, content)]`). -/
def finditerStarts (pat : Pat) (cs : Str) : List Nat := finditerGo pat cs 0 0

/-- Greedy selection of a non-overlapping subset of occurrence positions:
keep a position iff it is not closer than `adv` to the previously kept one.
This is the spec-side description of "non-overlapping matches, leftmost
first"; `finditer_eq_select` below proves the code model equal to it. -/
def selectNonOverlapping (adv : Nat) : Nat → List Nat → List Nat
  | _, [] => []
  | next, j :: rest =>
      if next ≤ j then j :: selectNonOverlapping adv (j + adv) rest
      else selectNonOverlapping adv next rest

/-- Search for the first character accepted by `isTerm`.  The lazy `.*?` in
the crawler's patterns can consume anything except a newline, so the search
fails when a `'\n'` occurs before every terminator (and at end of input).
On success it returns the consumed middle part together with the remainder
after the terminator. -/
def findMid (isTerm : Char → Bool) : Str → Option (Str × Str)
  | [] => none
  | ch :: rest =>
      if isTerm ch then some ([], rest)
      else if ch == '\n' then none
      else
        match findMid isTerm rest with
        | some (mid, after) => some (ch :: mid, after)
        | none => none

/-- One generic `re.findall` pass for the crawler's patterns, all of which
have the shape `PREFIX(.*?)(?:T1|T2|...)` with a fixed-width `PREFIX`:
scan left to right, and at a position where `pat` matches, lazily extend to
the first terminator; the returned capture is the middle part, preceded by
the matched prefix text when `keepPat` is set (the capture group of the
link-lookup pattern starts at the term, while `href=\"(...)\"` captures only
the middle).  Scanning resumes after the terminator, as `re.findall` does:
after a match, `skip` positions (the rest of the matched text) are passed
over before testing resumes. -/
def scanGo (pat : Pat) (isTerm : Char → Bool) (keepPat : Bool) : Str → Nat → List Str
  | [], _ => []
  | _ :: rest, skip + 1 => scanGo pat isTerm keepPat rest skip
  | c :: rest, 0 =>
      if matchesAt pat (c :: rest) then
        match findMid isTerm ((c :: rest).drop pat.length) with
        | some (mid, _) =>
            ((if keepPat then (c :: rest).take pat.length else []) ++ mid) ::
              scanGo pat isTerm keepPat rest (pat.length + mid.length)
        | none => scanGo pat isTerm keepPat rest 0
      else scanGo pat isTerm keepPat rest 0

/-- The terminator set of the link-lookup pattern
`({term}.*?)(?:'|\"|#)` from line 87. -/
def linkTerminator (ch : Char) : Bool := ch == '\'' || ch == '"' || ch == '#'

/-- `re.findall(r\"({term}.*?)(?:'|\\\"|#)\", content)`: captures start at the
term occurrence and run up to (not including) the next quote or hash. -/
def linkFindall (pat : Pat) (cs : Str) : List Str :=
  scanGo pat linkTerminator true cs 0

/-- The literal prefix `href=` followed by the opening quote. -/
def hrefStart (q : Char) : Str := ['h', 'r', 'e', 'f', '=', q]

/-- Terminators of the href patterns: the matching quote or `#`. -/
def hrefTerminator (q : Char) (ch : Char) : Bool := ch == q || ch == '#'

/-- `re.findall(r'href=\"(.*?)(?:\"|#)', content)` (for `q = '\"'`) and its
single-quote twin from line 109; only the middle part is captured. -/
def hrefFindall (q : Char) (cs : Str) : List Str :=
  scanGo (litPat (hrefStart q)) (hrefTerminator q) false cs 0

/-- Python's `str.strip()` whitespace set. -/
def pyIsSpace (c : Char) : Bool :=
  c == ' ' || c == '\t' || c == '\n' || c == '\r' || c == '\x0b' || c == '\x0c'

/-- Python's `str.strip()`: drop whitespace from both ends. -/
def pyStrip (cs : Str) : Str :=
  ((cs.dropWhile pyIsSpace).reverse.dropWhile pyIsSpace).reverse

/-- The configuration fields `__init__` stores on an instance.
`verbose_level` only filters what `write` prints and plays no role in the
crawling logic. -/
structure NightCrawler where
  base_domain : Str
  unwanted_terms : List (Str × Int)
  use_link_lookup : Bool
  verbose_level : Int
  deriving DecidableEq, Repr

/-- `FILETYPES_TO_IGNORE` (lines 31-38). -/
def FILETYPES_TO_IGNORE : List Str :=
  [".pdf".data, ".svg".data, ".png".data, ".css".data, ".ico".data, ".js".data]

/-- `STR_CONTEXT_SIZE` (line 39). -/
def STR_CONTEXT_SIZE : Nat := 30

/-- Python's `in` on strings: the needle occurs as a contiguous substring
of the haystack. -/
def isSubstring (needle : Str) : Str → Bool
  | [] => needle.isEmpty
  | c :: rest => needle.isPrefixOf (c :: rest) || isSubstring needle rest

/-- `is_useful_link` (lines 55-63): reject when the URL neither contains the
base domain as a substring nor starts with `/`; then reject when it ends
with an ignored extension; accept otherwise. -/
def NightCrawler.is_useful_link (self : NightCrawler) (url : Str) : Bool :=
  if !(isSubstring self.base_domain url) && !(['/'].isPrefixOf url) then false
  else if FILETYPES_TO_IGNORE.any (fun ft => ft.isSuffixOf url) then false
  else true

/-- The raw match count of one term on one page (lines 87 and 97): the number
of `re.findall` link matches in link-lookup mode, the number of `re.finditer`
matches in plain-text mode.  In both modes the term string is interpolated
into the pattern unescaped, hence `strToPat`. -/
def NightCrawler.termCount (self : NightCrawler) (term : Str) (content : Str) : Nat :=
  if self.use_link_lookup then (linkFindall (strToPat term) content).length
  else (finditerStarts (strToPat term) content).length

/-- `count_beyond_expected = max(count - max_qty, 0)` (lines 89 and 99).
Python integers are unbounded, so the subtraction lives in `Int`. -/
def count_beyond_expected (count : Nat) (max_qty : Int) : Int :=
  max ((count : Int) - max_qty) 0

/-- `total_count` accumulated over all configured terms (lines 83-105). -/
def NightCrawler.total_count (self : NightCrawler) (content : Str) : Int :=
  (self.unwanted_terms.map fun tq =>
    count_beyond_expected (self.termCount tq.1 content) tq.2).sum

/-- The diagnostic context substrings of plain-text mode (line 104):
`content[start_idx : start_idx + len(unwanted_term) + STR_CONTEXT_SIZE]`
for each match start. -/
def contextWindows (term : Str) (content : Str) : List Str :=
  (finditerStarts (strToPat term) content).map fun i =>
    (content.drop i).take (term.length + STR_CONTEXT_SIZE)

/-- Line 109: the two `re.findall` passes over the raw content, double-quoted
hrefs first, then single-quoted ones. -/
def extractHrefLinks (content : Str) : List Str :=
  hrefFindall '"' content ++ hrefFindall '\'' content

/-- Lines 109-112: extract hrefs, strip whitespace, deduplicate
(`list(set(links))`, a set, so only membership matters; modelled with
`List.dedup`), keep the useful ones. -/
def NightCrawler.pageLinks (self : NightCrawler) (content : Str) : List Str :=
  (((extractHrefLinks content).map pyStrip).dedup).filter self.is_useful_link

/-- The environment of a crawl: what `requests.get(url).content.decode('utf-8')`
would return for each URL.  A URL outside the map models any fetch or decode
failure (the `except Exception` branch of lines 76-80). -/
abbrev Web := List (Str × Str)

def fetchPage (web : Web) (url : Str) : Option Str := web.lookup url

/-- The `URLS_CHECKED` dictionary, as a key-value list in insertion order. -/
abbrev Visited := List (Str × Int)

def Visited.keys (v : Visited) : List Str := v.map Prod.fst

/-- `url in self.URLS_CHECKED` (line 69). -/
def Visited.hasUrl (v : Visited) (u : Str) : Bool := v.any fun p => p.1 == u

/-- Line 66-67: a URL starting with `/` gets the base domain prepended. -/
def NightCrawler.normalize (self : NightCrawler) (url : Str) : Str :=
  if ['/'].isPrefixOf url then self.base_domain ++ url else url

mutual
/-- `check_page` (lines 65-114), with a fuel parameter making the recursion
structurally terminating (every stated property holds for every fuel value,
and any fuel larger than the page count of the web behaves like the
unbounded original).  Besides the updated `URLS_CHECKED` it returns the
list of URLs for which an HTTP fetch was attempted, in order, so that
"this page was (re-)fetched" is observable.  Steps, in source order:
normalize, dedup check (return immediately when already visited), fetch
(on failure return with the visited set unchanged), score and insert, then
recurse into the filtered child links. -/
def check_page (self : NightCrawler) (web : Web) : Nat → Str → Visited → Visited × List Str
  | 0, _, v => (v, [])
  | fuel + 1, url0, v =>
      let url := self.normalize url0
      if Visited.hasUrl v url then (v, [])
      else
        match fetchPage web url with
        | none => (v, [url])
        | some content =>
            let v1 := v ++ [(url, self.total_count content)]
            let r := check_pages self web fuel (self.pageLinks content) v1
            (r.1, url :: r.2)

/-- The `for link in links: self.check_page(link)` loop (lines 113-114). -/
def check_pages (self : NightCrawler) (web : Web) : Nat → List Str → Visited → Visited × List Str
  | 0, _, v => (v, [])
  | _ + 1, [], v => (v, [])
  | fuel + 1, l :: ls, v =>
      let r1 := check_page self web fuel l v
      let r2 := check_pages self web fuel ls r1.1
      (r2.1, r1.2 ++ r2.2)
end

/-- `crawl` (lines 48-49): start at the base domain.  The visited set the
run starts from is passed in explicitly because `URLS_CHECKED` is a class
attribute, not created by `__init__` (see `NightCrawler.newInstance`). -/
def NightCrawler.crawl (self : NightCrawler) (web : Web) (fuel : Nat)
    (urls_checked : Visited) : Visited × List Str :=
  check_page self web fuel self.base_domain urls_checked

/-- `URLS_CHECKED = {}` (line 40) is a *class attribute*: the empty dict is
created once, when the class body executes in a process, and is shared by
every `NightCrawler` instance of that process. -/
def URLS_CHECKED_at_process_start : Visited := []

/-- `__init__` (lines 42-49) stores the four configuration values on the
instance and does not touch `URLS_CHECKED`; a new instance therefore crawls
with whatever the class-level visited set already contains, which is what the
second component passes along. -/
def NightCrawler.newInstance (base_domain : Str) (unwanted_terms : List (Str × Int))
    (use_link_lookup : Bool) (verbose_level : Int) (urls_checked : Visited) :
    NightCrawler × Visited :=
  (⟨base_domain, unwanted_terms, use_link_lookup, verbose_level⟩, urls_checked)

/-- `pages_clear` of `print_summary` (line 118). -/
def pages_clear (v : Visited) : Visited := v.filter fun p => p.2 == 0

/-- `pages_with_terms` of `print_summary` (line 120). -/
def pages_with_terms (v : Visited) : Visited := v.filter fun p => decide (0 < p.2)

/-- The subsequence of a fetch log consisting of the fetches that succeeded
(the URL is in the web, so `requests.get(url).content.decode('utf-8')` did
not raise). -/
def successfulFetches (web : Web) (log : List Str) : List Str :=
  log.filter fun u => (fetchPage web u).isSome

/-- Characters that are not regex metacharacters; a term made only of these
denotes itself when interpolated into a pattern.  The model interprets `.`
as the metacharacter and every other character literally, which covers the
patterns the program's documented usage builds. -/
def isRegexLiteralChar (c : Char) : Bool :=
  !(['.', '^', '$', '*', '+', '?', '(', ')', '[', ']', '|', '\x7b', '\x7d', '\\'].contains c)

/-- Spec scenario C content: two hrefs to a `promotion` path. -/
def scenarioC_content : Str :=
  "href=\"http://x.com/promotion/abc\" href=\"http://x.com/promotion/def\"".data

/-- A crawler configured for scenario C: link-lookup mode, term `promotion`
with threshold 0. -/
def scenarioC_crawler : NightCrawler :=
  ⟨"http://x.com".data, [("promotion".data, 0)], true, 1⟩

/-- Spec scenario A content: one root-relative link and one off-domain
`.pdf` link. -/
def scenarioA_content : Str :=
  "<a href=\"/about\">About</a><a href=\"http://evil.com/x.pdf\">x</a>".data

/-- A crawler whose base domain is scenario A's `http://my.base.domain`. -/
def scenarioA_crawler : NightCrawler :=
  ⟨"http://my.base.domain".data, [], false, 1⟩

/-- The one-page web of the shared-class-attribute scenario. -/
def c8_web : Web := [("http://d".data, "x".data)]

/-- The first instance of the process, constructed while `URLS_CHECKED`
still holds the empty dict created when the class body executed. -/
def c8_first : NightCrawler × Visited :=
  NightCrawler.newInstance "http://d".data [("x".data, 0)] false 1
    URLS_CHECKED_at_process_start

/-- The class attribute after the first instance's crawl. -/
def c8_after_run1 : Visited := (c8_first.1.crawl c8_web 5 c8_first.2).1

/-- A second instance, constructed later in the same process: `__init__`
leaves `URLS_CHECKED` exactly as the first run left it. -/
def c8_second : NightCrawler × Visited :=
  NightCrawler.newInstance "http://d".data [("x".data, 0)] false 1 c8_after_run1

/-! ## Supporting lemmas -/

theorem hasUrl_iff (v : Visited) (u : Str) :
    Visited.hasUrl v u = true ↔ u ∈ Visited.keys v := by
  simp [Visited.hasUrl, Visited.keys, List.any_eq_true]

theorem matchesAt_litPat (t : Str) :
    ∀ cs, matchesAt (litPat t) cs = true ↔ t <+: cs := by
  induction t with
  | nil => intro cs; simp [litPat, matchesAt]
  | cons a t' ih =>
    intro cs
    cases cs with
    | nil => simp [litPat, matchesAt]
    | cons c cs' =>
      simp [litPat, matchesAt, PatChar.matches1, List.cons_prefix_cons]
      intro _
      exact ih cs'

theorem strToPat_eq_litPat (term : Str) (h : ∀ ch ∈ term, isRegexLiteralChar ch = true) :
    strToPat term = litPat term := by
  unfold strToPat litPat
  apply List.map_congr_left
  intro c hc
  have := h c hc
  simp [isRegexLiteralChar] at this
  simp [this.1]

theorem occStartsAux_mem_iff (pat : Pat) :
    ∀ cs i j, j ∈ occStartsAux pat cs i ↔
      (i ≤ j ∧ j - i ≤ cs.length ∧ matchesAt pat (cs.drop (j - i)) = true) := by
  intro cs
  induction cs with
  | nil =>
    intro i j
    simp only [occStartsAux, List.length_nil, List.drop_nil]
    constructor
    · intro h
      split at h <;> simp_all
    · rintro ⟨h1, h2, h3⟩
      have : j = i := by omega
      subst this
      simp [h3]
  | cons c rest ih =>
    intro i j
    simp only [occStartsAux, List.mem_append, ih, List.length_cons]
    constructor
    · intro h
      rcases h with h | ⟨h1, h2, h3⟩
      · split at h <;> simp_all
      · refine ⟨by omega, by omega, ?_⟩
        have : (c :: rest).drop (j - i) = rest.drop (j - (i + 1)) := by
          have : j - i = (j - (i + 1)) + 1 := by omega
          rw [this, List.drop_succ_cons]
        rw [this]
        exact h3
    · rintro ⟨h1, h2, h3⟩
      by_cases hij : j = i
      · subst hij
        simp at h3
        simp [h3]
      · right
        refine ⟨by omega, by omega, ?_⟩
        have : (c :: rest).drop (j - i) = rest.drop (j - (i + 1)) := by
          have : j - i = (j - (i + 1)) + 1 := by omega
          rw [this, List.drop_succ_cons]
        rw [this] at h3
        exact h3

theorem select_subset (adv : Nat) :
    ∀ xs next j, j ∈ selectNonOverlapping adv next xs → j ∈ xs := by
  intro xs
  induction xs with
  | nil => intro next j h; simp [selectNonOverlapping] at h
  | cons x rest ih =>
    intro next j h
    rw [selectNonOverlapping] at h
    split at h
    · rcases List.mem_cons.mp h with h | h
      · simp [h]
      · exact List.mem_cons_of_mem _ (ih _ _ h)
    · exact List.mem_cons_of_mem _ (ih _ _ h)

theorem select_skip (adv : Nat) :
    ∀ xs ys next, (∀ j ∈ xs, j < next) →
      selectNonOverlapping adv next (xs ++ ys) = selectNonOverlapping adv next ys := by
  intro xs
  induction xs with
  | nil => intro ys next _; simp
  | cons x rest ih =>
    intro ys next h
    have hx : x < next := h x (by simp)
    simp only [List.cons_append, selectNonOverlapping]
    rw [if_neg (by omega)]
    exact ih ys next fun j hj => h j (by simp [hj])

theorem select_congr_start (adv : Nat) :
    ∀ xs n1 n2, (∀ j ∈ xs, n1 ≤ j) → (∀ j ∈ xs, n2 ≤ j) →
      selectNonOverlapping adv n1 xs = selectNonOverlapping adv n2 xs := by
  intro xs
  induction xs with
  | nil => intro n1 n2 _ _; simp [selectNonOverlapping]
  | cons x rest ih =>
    intro n1 n2 h1 h2
    simp only [selectNonOverlapping]
    rw [if_pos (h1 x (by simp)), if_pos (h2 x (by simp))]

theorem finditerGo_eq_select (pat : Pat) :
    ∀ cs i skip, finditerGo pat cs i skip =
      selectNonOverlapping (patAdv pat) (i + skip) (occStartsAux pat cs i) := by
  intro cs
  induction cs with
  | nil =>
    intro i skip
    cases skip with
    | zero =>
      by_cases hm : matchesAt pat ([] : Str) = true <;>
        simp [finditerGo, occStartsAux, selectNonOverlapping, hm]
    | succ s =>
      by_cases hm : matchesAt pat ([] : Str) = true <;>
        simp [finditerGo, occStartsAux, selectNonOverlapping, hm]
  | cons c rest ih =>
    intro i skip
    cases skip with
    | succ s =>
      rw [finditerGo, occStartsAux, ih (i + 1) s]
      by_cases hm : matchesAt pat (c :: rest) = true
      · rw [if_pos hm]
        rw [List.singleton_append, selectNonOverlapping, if_neg (by omega)]
        have : i + 1 + s = i + (s + 1) := by omega
        rw [this]
      · rw [if_neg hm, List.nil_append]
        have : i + 1 + s = i + (s + 1) := by omega
        rw [this]
    | zero =>
      rw [finditerGo, occStartsAux]
      by_cases hm : matchesAt pat (c :: rest) = true
      · rw [if_pos hm, if_pos hm]
        rw [List.singleton_append, selectNonOverlapping, if_pos (by omega)]
        rw [ih (i + 1) (patAdv pat - 1)]
        have hadv : 1 ≤ patAdv pat := by simp [patAdv]
        have : i + 1 + (patAdv pat - 1) = i + 0 + patAdv pat := by omega
        rw [this]
        have h0 : i + 0 + patAdv pat = i + patAdv pat := by omega
        rw [h0]
      · rw [if_neg hm, if_neg hm, List.nil_append]
        rw [ih (i + 1) 0]
        apply select_congr_start
        · intro j hj
          have := (occStartsAux_mem_iff pat rest (i + 1) j).mp hj
          omega
        · intro j hj
          have := (occStartsAux_mem_iff pat rest (i + 1) j).mp hj
          omega

/-- The `re.finditer` model is the greedy leftmost non-overlapping selection
from the list of all (possibly overlapping) match start positions. -/
theorem finditer_eq_select (pat : Pat) (cs : Str) :
    finditerStarts pat cs = selectNonOverlapping (patAdv pat) 0 (occStarts pat cs) := by
  have := finditerGo_eq_select pat cs 0 0
  simpa [finditerStarts, occStarts] using this

theorem findMid_spec (isTerm : Char → Bool) :
    ∀ cs mid after, findMid isTerm cs = some (mid, after) →
      (∀ ch ∈ mid, isTerm ch = false ∧ ¬ ch = '\n') ∧
      ∃ t, isTerm t = true ∧ cs = mid ++ t :: after := by
  intro cs
  induction cs with
  | nil => intro mid after h; simp [findMid] at h
  | cons ch rest ih =>
    intro mid after h
    rw [findMid] at h
    split at h
    · rename_i hterm
      cases h
      exact ⟨by simp, ch, hterm, by simp⟩
    · rename_i hterm
      split at h
      · cases h
      · rename_i hnl
        cases hrec : findMid isTerm rest with
        | none => rw [hrec] at h; cases h
        | some p =>
          rw [hrec] at h
          cases h
          obtain ⟨h1, t, ht, heq⟩ := ih p.1 p.2 hrec
          refine ⟨?_, t, ht, by simp [heq]⟩
          intro d hd
          rcases List.mem_cons.mp hd with hd | hd
          · subst hd
            constructor
            · simpa using hterm
            · simpa using hnl
          · exact h1 d hd

theorem scanGo_litPat_sound (term : Str) (isTerm : Char → Bool) :
    ∀ cs skip cap, cap ∈ scanGo (litPat term) isTerm true cs skip →
      ∃ mid, cap = term ++ mid ∧ ∀ ch ∈ mid, isTerm ch = false ∧ ¬ ch = '\n' := by
  intro cs
  induction cs with
  | nil => intro skip cap hcap; simp [scanGo] at hcap
  | cons c rest ih =>
    intro skip cap hcap
    cases skip with
    | succ s =>
      rw [scanGo] at hcap
      exact ih s cap hcap
    | zero =>
      rw [scanGo] at hcap
      by_cases hm : matchesAt (litPat term) (c :: rest) = true
      · rw [if_pos hm] at hcap
        cases hfm : findMid isTerm ((c :: rest).drop (litPat term).length) with
        | none =>
          simp only [hfm] at hcap
          exact ih 0 cap hcap
        | some p =>
          obtain ⟨mid, after⟩ := p
          simp only [hfm] at hcap
          rcases List.mem_cons.mp hcap with hcap | hcap
          · have hpre : term <+: (c :: rest) := (matchesAt_litPat term (c :: rest)).mp hm
            have htake : (c :: rest).take term.length = term :=
              (List.prefix_iff_eq_take.mp hpre).symm
            have hlen : (litPat term).length = term.length := by simp [litPat]
            refine ⟨mid, ?_, fun d hd => (findMid_spec isTerm _ _ _ hfm).1 d hd⟩
            rw [hcap]
            simp [hlen, htake]
          · exact ih _ cap hcap
      · rw [if_neg hm] at hcap
        exact ih 0 cap hcap

/-- Soundness of the link-lookup captures for a literal term: every string
`re.findall` returns consists of the term followed by a run free of
terminator characters (and of newlines, which `.*?` cannot cross). -/
theorem linkFindall_litPat_sound (term : Str) (cs : Str) :
    ∀ cap ∈ linkFindall (litPat term) cs,
      ∃ mid, cap = term ++ mid ∧
        ∀ ch ∈ mid, linkTerminator ch = false ∧ ¬ ch = '\n' :=
  fun cap h => scanGo_litPat_sound term linkTerminator cs 0 cap h

theorem isSubstring_iff (needle : Str) :
    ∀ hay, isSubstring needle hay = true ↔ needle <:+: hay := by
  intro hay
  induction hay with
  | nil => simp [isSubstring, List.infix_nil, List.isEmpty_iff]
  | cons c rest ih =>
    rw [isSubstring, List.infix_cons_iff]
    simp [List.isPrefixOf_iff_prefix, ih]

theorem count_beyond_expected_nonneg (count : Nat) (max_qty : Int) :
    0 ≤ count_beyond_expected count max_qty :=
  le_max_right _ _

theorem total_count_nonneg (self : NightCrawler) (content : Str) :
    0 ≤ self.total_count content := by
  apply List.sum_nonneg
  intro x hx
  simp only [NightCrawler.total_count, List.mem_map] at hx
  obtain ⟨tq, _, hx⟩ := hx
  rw [← hx]
  exact count_beyond_expected_nonneg _ _

theorem keys_append (v w : Visited) :
    Visited.keys (v ++ w) = Visited.keys v ++ Visited.keys w := by
  simp [Visited.keys]

theorem hasUrl_append (v w : Visited) (k : Str) :
    Visited.hasUrl (v ++ w) k = (Visited.hasUrl v k || Visited.hasUrl w k) := by
  simp [Visited.hasUrl, List.any_append]

theorem hasUrl_false_iff (v : Visited) (k : Str) :
    Visited.hasUrl v k = false ↔ k ∉ Visited.keys v := by
  rw [← Bool.not_eq_true, not_iff_not]
  exact hasUrl_iff v k

theorem successfulFetches_nil (web : Web) : successfulFetches web [] = [] := rfl

theorem successfulFetches_cons_some (web : Web) (u : Str) (l : List Str) (c : Str)
    (h : fetchPage web u = some c) :
    successfulFetches web (u :: l) = u :: successfulFetches web l := by
  simp [successfulFetches, List.filter_cons, h]

theorem successfulFetches_cons_none (web : Web) (u : Str) (l : List Str)
    (h : fetchPage web u = none) :
    successfulFetches web (u :: l) = successfulFetches web l := by
  simp [successfulFetches, List.filter_cons, h]

theorem successfulFetches_append (web : Web) (l1 l2 : List Str) :
    successfulFetches web (l1 ++ l2) =
      successfulFetches web l1 ++ successfulFetches web l2 := by
  simp [successfulFetches, List.filter_append]

/-- The central invariant of the traversal, proved for `check_page` and the
sibling loop `check_pages` simultaneously: a call only appends entries to
`URLS_CHECKED`; the successfully fetched URLs are exactly the newly
inserted keys, in insertion order; every inserted key was unvisited when
the call began; the inserted keys are pairwise distinct; and every stored
count is non-negative. -/
theorem crawl_invariant (self : NightCrawler) (web : Web) :
    ∀ fuel,
      (∀ url0 v, ∃ w,
        (check_page self web fuel url0 v).1 = v ++ w ∧
        successfulFetches web (check_page self web fuel url0 v).2 = Visited.keys w ∧
        (∀ k ∈ Visited.keys w, Visited.hasUrl v k = false) ∧
        (Visited.keys w).Nodup ∧ (∀ p ∈ w, 0 ≤ p.2)) ∧
      (∀ ls v, ∃ w,
        (check_pages self web fuel ls v).1 = v ++ w ∧
        successfulFetches web (check_pages self web fuel ls v).2 = Visited.keys w ∧
        (∀ k ∈ Visited.keys w, Visited.hasUrl v k = false) ∧
        (Visited.keys w).Nodup ∧ (∀ p ∈ w, 0 ≤ p.2)) := by
  intro fuel
  induction fuel with
  | zero =>
    constructor
    · intro url0 v
      exact ⟨[], by simp [check_page], by simp [check_page, successfulFetches, Visited.keys],
        by simp [Visited.keys], by simp [Visited.keys], by simp⟩
    · intro ls v
      exact ⟨[], by simp [check_pages], by simp [check_pages, successfulFetches, Visited.keys],
        by simp [Visited.keys], by simp [Visited.keys], by simp⟩
  | succ fuel ih =>
    obtain ⟨ihp, ihl⟩ := ih
    constructor
    · intro url0 v
      by_cases hvis : Visited.hasUrl v (self.normalize url0) = true
      · exact ⟨[], by simp [check_page, hvis],
          by simp [check_page, hvis, successfulFetches, Visited.keys],
          by simp [Visited.keys], by simp [Visited.keys], by simp⟩
      · rw [Bool.not_eq_true] at hvis
        cases hf : fetchPage web (self.normalize url0) with
        | none =>
          refine ⟨[], ?_, ?_, by simp [Visited.keys], by simp [Visited.keys], by simp⟩
          · simp [check_page, hvis, hf]
          · simp [check_page, hvis, hf, successfulFetches, Visited.keys]
        | some content =>
          obtain ⟨w', h1, h2, h3, h4, h5⟩ :=
            ihl (self.pageLinks content)
              (v ++ [(self.normalize url0, self.total_count content)])
          have hred : check_page self web (fuel + 1) url0 v =
              ((check_pages self web fuel (self.pageLinks content)
                  (v ++ [(self.normalize url0, self.total_count content)])).1,
                self.normalize url0 ::
                  (check_pages self web fuel (self.pageLinks content)
                    (v ++ [(self.normalize url0, self.total_count content)])).2) := by
            simp [check_page, hvis, hf]
          refine ⟨(self.normalize url0, self.total_count content) :: w', ?_, ?_, ?_, ?_, ?_⟩
          · rw [hred]
            simp only [h1, List.append_assoc, List.singleton_append]
          · rw [hred]
            simp only []
            rw [successfulFetches_cons_some web _ _ content hf, h2]
            simp [Visited.keys]
          · intro k hk
            simp only [Visited.keys, List.map_cons] at hk
            rcases List.mem_cons.mp hk with hk | hk
            · rw [hk]
              exact hvis
            · have := h3 k hk
              rw [hasUrl_append, Bool.or_eq_false_iff] at this
              exact this.1
          · simp only [Visited.keys, List.map_cons, List.nodup_cons]
            constructor
            · intro hmem
              have := h3 _ hmem
              rw [hasUrl_append, Bool.or_eq_false_iff] at this
              have h2' := this.2
              simp [Visited.hasUrl] at h2'
            · exact h4
          · intro p hp
            rcases List.mem_cons.mp hp with hp | hp
            · rw [hp]
              exact total_count_nonneg self content
            · exact h5 p hp
    · intro ls v
      cases ls with
      | nil =>
        exact ⟨[], by simp [check_pages], by simp [check_pages, successfulFetches, Visited.keys],
          by simp [Visited.keys], by simp [Visited.keys], by simp⟩
      | cons l ls =>
        obtain ⟨w1, g1, g2, g3, g4, g5⟩ := ihp l v
        obtain ⟨w2, k1, k2, k3, k4, k5⟩ := ihl ls ((check_page self web fuel l v).1)
        have hred : check_pages self web (fuel + 1) (l :: ls) v =
            ((check_pages self web fuel ls ((check_page self web fuel l v).1)).1,
              (check_page self web fuel l v).2 ++
                (check_pages self web fuel ls ((check_page self web fuel l v).1)).2) := by
          simp [check_pages]
        refine ⟨w1 ++ w2, ?_, ?_, ?_, ?_, ?_⟩
        · rw [hred, k1, g1, List.append_assoc]
        · rw [hred]
          simp only [successfulFetches_append, g2, k2, keys_append]
        · intro k hk
          rw [keys_append] at hk
          rcases List.mem_append.mp hk with hk | hk
          · exact g3 k hk
          · have := k3 k hk
            rw [g1, hasUrl_append, Bool.or_eq_false_iff] at this
            exact this.1
        · rw [keys_append, List.nodup_append]
          refine ⟨g4, k4, ?_⟩
          intro k hk1 hk2
          have := k3 k hk2
          rw [g1, hasUrl_append, Bool.or_eq_false_iff] at this
          have h2' := this.2
          rw [hasUrl_false_iff] at h2'
          exact h2' hk1
        · intro p hp
          rcases List.mem_append.mp hp with hp | hp
          · exact g5 p hp
          · exact k5 p hp

/-- In a visited set with pairwise distinct keys, a key determines its
value. -/
theorem keys_nodup_inj (v : Visited) (hv : (Visited.keys v).Nodup) :
    ∀ u a b, (u, a) ∈ v → (u, b) ∈ v → a = b := by
  induction v with
  | nil => intro u a b h; simp at h
  | cons p rest ih =>
    intro u a b ha hb
    simp only [Visited.keys, List.map_cons, List.nodup_cons] at hv
    rcases List.mem_cons.mp ha with ha | ha <;> rcases List.mem_cons.mp hb with hb | hb
    · exact congrArg Prod.snd (ha.trans hb.symm)
    · exfalso
      apply hv.1
      rw [← ha]
      have hmem := List.mem_map_of_mem Prod.fst hb
      exact hmem
    · exfalso
      apply hv.1
      rw [← hb]
      have hmem := List.mem_map_of_mem Prod.fst ha
      exact hmem
    · exact ih hv.2 u a b ha hb

theorem clear_flagged_length (v : Visited) (hnonneg : ∀ p ∈ v, 0 ≤ p.2) :
    (pages_clear v).length + (pages_with_terms v).length = v.length := by
  induction v with
  | nil => simp [pages_clear, pages_with_terms]
  | cons p rest ih =>
    have hp := hnonneg p (List.mem_cons_self p rest)
    have ih' := ih fun q hq => hnonneg q (List.mem_cons_of_mem p hq)
    by_cases h0 : p.2 = 0
    · simp only [pages_clear, pages_with_terms, List.filter_cons] at ih' ⊢
      rw [if_pos (by simp [h0]), if_neg (by simp [h0])]
      simp only [List.length_cons]
      omega
    · have hpos : 0 < p.2 := by omega
      simp only [pages_clear, pages_with_terms, List.filter_cons] at ih' ⊢
      rw [if_neg (by simp [h0]), if_pos (by simp [hpos])]
      simp only [List.length_cons]
      omega

/-! ## Claims -/

/-- **C1.** For every crawl, each normalized URL appears at most once as a
key of `URLS_CHECKED`; a call on an already-visited URL (after prepending
the base domain to a `/`-relative URL) returns immediately, performing no
fetch; and the successfully fetched URLs of a run are pairwise distinct and
were all unvisited when the call began — so a page linking to itself or to
an already-visited page is never fetched a second time. -/
theorem C1_visited_at_most_once (self : NightCrawler) (web : Web) (fuel : Nat)
    (url0 : Str) (v : Visited) (hv : (Visited.keys v).Nodup) :
    (Visited.keys (check_page self web fuel url0 v).1).Nodup ∧
    (Visited.hasUrl v (self.normalize url0) = true →
      check_page self web fuel url0 v = (v, [])) ∧
    (successfulFetches web (check_page self web fuel url0 v).2).Nodup ∧
    (∀ u ∈ successfulFetches web (check_page self web fuel url0 v).2,
      Visited.hasUrl v u = false) := by
  obtain ⟨w, h1, h2, h3, h4, _⟩ := (crawl_invariant self web fuel).1 url0 v
  refine ⟨?_, ?_, ?_, ?_⟩
  · rw [h1, keys_append, List.nodup_append]
    refine ⟨hv, h4, ?_⟩
    intro k hk1 hk2
    have := h3 k hk2
    rw [hasUrl_false_iff] at this
    exact this hk1
  · intro hvis
    cases fuel with
    | zero => rfl
    | succ fuel => simp [check_page, hvis]
  · rw [h2]
    exact h4
  · intro u hu
    rw [h2] at hu
    exact h3 u hu

/-- Witness for C1 at a concrete crawl: a two-page web whose second page
links back to the seed (spec scenario D). -/
theorem C1_witness :
    (Visited.keys ([] : Visited)).Nodup ∧
    ((Visited.keys (check_page
        (⟨"http://d".data, [("x".data, 0)], false, 1⟩ : NightCrawler)
        [("http://d".data, "<a href=\"/p\">p</a>".data),
         ("http://d/p".data, "<a href=\"http://d\">seed</a>".data)]
        5 "http://d".data []).1).Nodup ∧
      (Visited.hasUrl [] ((⟨"http://d".data, [("x".data, 0)], false, 1⟩ : NightCrawler).normalize "http://d".data) = true →
        check_page (⟨"http://d".data, [("x".data, 0)], false, 1⟩ : NightCrawler)
          [("http://d".data, "<a href=\"/p\">p</a>".data),
           ("http://d/p".data, "<a href=\"http://d\">seed</a>".data)]
          5 "http://d".data [] = ([], [])) ∧
      (successfulFetches
        [("http://d".data, "<a href=\"/p\">p</a>".data),
         ("http://d/p".data, "<a href=\"http://d\">seed</a>".data)]
        (check_page (⟨"http://d".data, [("x".data, 0)], false, 1⟩ : NightCrawler)
          [("http://d".data, "<a href=\"/p\">p</a>".data),
           ("http://d/p".data, "<a href=\"http://d\">seed</a>".data)]
          5 "http://d".data []).2).Nodup ∧
      (∀ u ∈ successfulFetches
        [("http://d".data, "<a href=\"/p\">p</a>".data),
         ("http://d/p".data, "<a href=\"http://d\">seed</a>".data)]
        (check_page (⟨"http://d".data, [("x".data, 0)], false, 1⟩ : NightCrawler)
          [("http://d".data, "<a href=\"/p\">p</a>".data),
           ("http://d/p".data, "<a href=\"http://d\">seed</a>".data)]
          5 "http://d".data []).2,
        Visited.hasUrl [] u = false)) :=
  ⟨by simp [Visited.keys],
    C1_visited_at_most_once _ _ 5 _ [] (by simp [Visited.keys])⟩

/-- **C3.** When the fetch of a (normalized, unvisited) URL fails, the call
records the attempt and returns with `URLS_CHECKED` completely unchanged —
the URL is not inserted and no other entry is touched — and no exception
escapes (the model is a total function).  Because the state is unchanged,
any later call for the same still-unvisited URL repeats the very same fetch
attempt: failed fetches are not memoized. -/
theorem C3_failed_fetch_not_memoized (self : NightCrawler) (web : Web)
    (fuel fuel2 : Nat) (url0 : Str) (v : Visited)
    (hvis : Visited.hasUrl v (self.normalize url0) = false)
    (hfetch : fetchPage web (self.normalize url0) = none) :
    check_page self web (fuel + 1) url0 v = (v, [self.normalize url0]) ∧
    check_page self web (fuel2 + 1) url0
        (check_page self web (fuel + 1) url0 v).1 =
      ((check_page self web (fuel + 1) url0 v).1, [self.normalize url0]) := by
  have h1 : check_page self web (fuel + 1) url0 v = (v, [self.normalize url0]) := by
    simp [check_page, hvis, hfetch]
  refine ⟨h1, ?_⟩
  rw [h1]
  simp [check_page, hvis, hfetch]

/-- Witness for C3: a web that does not contain the requested URL. -/
theorem C3_witness :
    (Visited.hasUrl []
        ((⟨"http://d".data, [], false, 1⟩ : NightCrawler).normalize "/broken".data) = false) ∧
    (fetchPage [("http://d".data, "x".data)]
        ((⟨"http://d".data, [], false, 1⟩ : NightCrawler).normalize "/broken".data) = none) ∧
    (check_page (⟨"http://d".data, [], false, 1⟩ : NightCrawler)
        [("http://d".data, "x".data)] 4 "/broken".data [] =
      ([], ["http://d/broken".data]) ∧
    check_page (⟨"http://d".data, [], false, 1⟩ : NightCrawler)
        [("http://d".data, "x".data)] 8 "/broken".data
        (check_page (⟨"http://d".data, [], false, 1⟩ : NightCrawler)
          [("http://d".data, "x".data)] 4 "/broken".data []).1 =
      ((check_page (⟨"http://d".data, [], false, 1⟩ : NightCrawler)
          [("http://d".data, "x".data)] 4 "/broken".data []).1,
        ["http://d/broken".data])) :=
  ⟨by decide, by decide,
    by
      have := C3_failed_fetch_not_memoized
        (⟨"http://d".data, [], false, 1⟩ : NightCrawler)
        [("http://d".data, "x".data)] 3 7 "/broken".data [] (by decide) (by decide)
      simpa using this⟩

/-- **C4.** `is_useful_link` returns `false` exactly when the URL neither
contains the base domain as a substring nor starts with `/`, or when it
ends with one of `.pdf .svg .png .css .ico .js`; every other URL returns
`true`.  It is a total boolean function of the configuration and the URL,
hence a pure predicate. -/
theorem C4_filter_correctness (self : NightCrawler) (url : Str) :
    self.is_useful_link url = false ↔
      ((¬ self.base_domain <:+: url) ∧ ¬ ['/'] <+: url) ∨
        ∃ ft ∈ FILETYPES_TO_IGNORE, ft <:+ url := by
  rw [NightCrawler.is_useful_link]
  split
  · rename_i h
    rw [Bool.and_eq_true, Bool.not_eq_true', Bool.not_eq_true'] at h
    refine iff_of_true rfl (Or.inl ⟨?_, ?_⟩)
    · rw [← isSubstring_iff]
      simp [h.1]
    · rw [← List.isPrefixOf_iff_prefix]
      simp [h.2]
  · rename_i h
    rw [Bool.and_eq_true, Bool.not_eq_true', Bool.not_eq_true'] at h
    split
    · rename_i h2
      rw [List.any_eq_true] at h2
      obtain ⟨ft, hft, hsuf⟩ := h2
      exact iff_of_true rfl (Or.inr ⟨ft, hft, (List.isSuffixOf_iff_suffix).mp hsuf⟩)
    · rename_i h2
      refine iff_of_false (by simp) ?_
      rintro (⟨hs, hp⟩ | ⟨ft, hft, hsuf⟩)
      · rw [← isSubstring_iff] at hs
        rw [← List.isPrefixOf_iff_prefix] at hp
        rw [Bool.not_eq_true] at hs hp
        exact h ⟨hs, hp⟩
      · apply h2
        rw [List.any_eq_true]
        exact ⟨ft, hft, (List.isSuffixOf_iff_suffix).mpr hsuf⟩

/-- **C5.** Per-term excess is `max(count - threshold, 0)`: non-increasing
in the threshold, zero as soon as the threshold reaches the count, and the
page's total score is the sum of the per-term excesses over the configured
terms in configuration order. -/
theorem C5_threshold_monotone (self : NightCrawler) (content term : Str)
    (t1 t2 : Int) (h : t1 ≤ t2) :
    count_beyond_expected (self.termCount term content) t2 ≤
        count_beyond_expected (self.termCount term content) t1 ∧
    (∀ t : Int, (self.termCount term content : Int) ≤ t →
        count_beyond_expected (self.termCount term content) t = 0) ∧
    (∀ t : Int, count_beyond_expected (self.termCount term content) t =
        max ((self.termCount term content : Int) - t) 0) ∧
    self.total_count content =
      (self.unwanted_terms.map fun tq =>
        count_beyond_expected (self.termCount tq.1 content) tq.2).sum := by
  refine ⟨?_, ?_, fun t => rfl, rfl⟩
  · simp only [count_beyond_expected]
    omega
  · intro t ht
    simp only [count_beyond_expected]
    omega

/-- Witness for C5, at scenario B's numbers: term `promotion` occurring
three times, thresholds 1 and 2. -/
theorem C5_witness :
    ((1 : Int) ≤ 2) ∧
    (count_beyond_expected
        ((⟨"http://d".data, [("promotion".data, 1)], false, 1⟩ : NightCrawler).termCount
          "promotion".data "promotion promotion promotion".data) 2 ≤
      count_beyond_expected
        ((⟨"http://d".data, [("promotion".data, 1)], false, 1⟩ : NightCrawler).termCount
          "promotion".data "promotion promotion promotion".data) 1 ∧
    (∀ t : Int,
      (((⟨"http://d".data, [("promotion".data, 1)], false, 1⟩ : NightCrawler).termCount
          "promotion".data "promotion promotion promotion".data : Nat) : Int) ≤ t →
        count_beyond_expected
          ((⟨"http://d".data, [("promotion".data, 1)], false, 1⟩ : NightCrawler).termCount
            "promotion".data "promotion promotion promotion".data) t = 0) ∧
    (∀ t : Int, count_beyond_expected
        ((⟨"http://d".data, [("promotion".data, 1)], false, 1⟩ : NightCrawler).termCount
          "promotion".data "promotion promotion promotion".data) t =
        max ((((⟨"http://d".data, [("promotion".data, 1)], false, 1⟩ : NightCrawler).termCount
          "promotion".data "promotion promotion promotion".data : Nat) : Int) - t) 0) ∧
    (⟨"http://d".data, [("promotion".data, 1)], false, 1⟩ : NightCrawler).total_count
        "promotion promotion promotion".data =
      ((⟨"http://d".data, [("promotion".data, 1)], false, 1⟩ : NightCrawler).unwanted_terms.map
        fun tq =>
          count_beyond_expected
            ((⟨"http://d".data, [("promotion".data, 1)], false, 1⟩ : NightCrawler).termCount
              tq.1 "promotion promotion promotion".data) tq.2).sum) :=
  ⟨by norm_num,
    C5_threshold_monotone (⟨"http://d".data, [("promotion".data, 1)], false, 1⟩ : NightCrawler)
      "promotion promotion promotion".data "promotion".data 1 2 (by norm_num)⟩

/-- **C9.** `print_summary` partitions the visited set: clear pages have
count 0, flagged pages have count > 0, every visited URL lands in exactly
one side, and the two sizes add up to the total number of visited pages. -/
theorem C9_partition (v : Visited) (hnodup : (Visited.keys v).Nodup)
    (hnonneg : ∀ p ∈ v, 0 ≤ p.2) :
    (pages_clear v).length + (pages_with_terms v).length = v.length ∧
    ∀ u ∈ Visited.keys v,
      (u ∈ Visited.keys (pages_clear v) ∧ u ∉ Visited.keys (pages_with_terms v)) ∨
      (u ∉ Visited.keys (pages_clear v) ∧ u ∈ Visited.keys (pages_with_terms v)) := by
  refine ⟨clear_flagged_length v hnonneg, ?_⟩
  intro u hu
  simp only [Visited.keys, List.mem_map] at hu
  obtain ⟨p, hpv, hpu⟩ := hu
  have hp' : (u, p.2) ∈ v := by
    rw [← hpu, Prod.mk.eta]
    exact hpv
  by_cases h0 : p.2 = 0
  · left
    constructor
    · simp only [Visited.keys, List.mem_map, pages_clear]
      exact ⟨p, List.mem_filter.mpr ⟨hpv, by simp [h0]⟩, hpu⟩
    · intro hmem
      simp only [Visited.keys, List.mem_map, pages_with_terms] at hmem
      obtain ⟨q, hqf, hqu⟩ := hmem
      have hqv := (List.mem_filter.mp hqf).1
      have hq2 : 0 < q.2 := by simpa using (List.mem_filter.mp hqf).2
      have hq' : (u, q.2) ∈ v := by
        rw [← hqu, Prod.mk.eta]
        exact hqv
      have := keys_nodup_inj v hnodup u p.2 q.2 hp' hq'
      omega
  · have hpos : 0 < p.2 := by
      have := hnonneg p hpv
      omega
    right
    constructor
    · intro hmem
      simp only [Visited.keys, List.mem_map, pages_clear] at hmem
      obtain ⟨q, hqf, hqu⟩ := hmem
      have hqv := (List.mem_filter.mp hqf).1
      have hq2 : q.2 = 0 := by simpa using (List.mem_filter.mp hqf).2
      have hq' : (u, q.2) ∈ v := by
        rw [← hqu, Prod.mk.eta]
        exact hqv
      have := keys_nodup_inj v hnodup u p.2 q.2 hp' hq'
      omega
    · simp only [Visited.keys, List.mem_map, pages_with_terms]
      exact ⟨p, List.mem_filter.mpr ⟨hpv, by simp [hpos]⟩, hpu⟩

/-- Witness for C9 on a concrete two-entry visited set. -/
theorem C9_witness :
    ((Visited.keys [("http://d".data, (0 : Int)), ("http://d/p".data, 2)]).Nodup ∧
      ∀ p ∈ [("http://d".data, (0 : Int)), ("http://d/p".data, 2)], 0 ≤ p.2) ∧
    ((pages_clear [("http://d".data, (0 : Int)), ("http://d/p".data, 2)]).length +
        (pages_with_terms [("http://d".data, (0 : Int)), ("http://d/p".data, 2)]).length =
      ([("http://d".data, (0 : Int)), ("http://d/p".data, 2)] : Visited).length ∧
    ∀ u ∈ Visited.keys [("http://d".data, (0 : Int)), ("http://d/p".data, 2)],
      (u ∈ Visited.keys (pages_clear [("http://d".data, (0 : Int)), ("http://d/p".data, 2)]) ∧
        u ∉ Visited.keys (pages_with_terms [("http://d".data, (0 : Int)), ("http://d/p".data, 2)])) ∨
      (u ∉ Visited.keys (pages_clear [("http://d".data, (0 : Int)), ("http://d/p".data, 2)]) ∧
        u ∈ Visited.keys (pages_with_terms [("http://d".data, (0 : Int)), ("http://d/p".data, 2)]))) :=
  ⟨⟨by decide, by decide⟩,
    C9_partition [("http://d".data, (0 : Int)), ("http://d/p".data, 2)] (by decide) (by decide)⟩

theorem select_length_le (adv : Nat) :
    ∀ xs next, (selectNonOverlapping adv next xs).length ≤ xs.length := by
  intro xs
  induction xs with
  | nil => intro next; simp [selectNonOverlapping]
  | cons x rest ih =>
    intro next
    rw [selectNonOverlapping]
    split
    · simpa using ih (x + adv)
    · have := ih next
      simp
      omega

theorem occStarts_litPat_mem (term content : Str) (i : Nat) :
    i ∈ occStarts (litPat term) content ↔
      i ≤ content.length ∧ term <+: content.drop i := by
  rw [occStarts, occStartsAux_mem_iff]
  simp [matchesAt_litPat]

/-- **C2 counterexample.** In plain-text mode the code counts via
`re.finditer`, which scans *non-overlappingly*: for term `aa` and content
`aaa` the code counts one match, while the literal term occurs at two
(overlapping) start positions — so the count does not equal the number of
all possibly-overlapping occurrence start positions. -/
theorem C2_counterexample :
    (⟨"http://d".data, [("aa".data, 0)], false, 1⟩ : NightCrawler).termCount
        "aa".data "aaa".data = 1 ∧
    (occStarts (litPat "aa".data) "aaa".data).length = 2 ∧
    (0 ∈ occStarts (litPat "aa".data) "aaa".data ∧
      1 ∈ occStarts (litPat "aa".data) "aaa".data) := by decide

/-- **C2 (amended).** In plain-text mode, for every content string and
every term free of regex metacharacters, the computed count is the number
of *non-overlapping* matches found by leftmost scanning — the greedy
non-overlapping selection from the list of all (possibly overlapping)
literal occurrence start positions, hence at most the overlapping count,
and every reported start is a genuine occurrence of the literal term; each
diagnostic context window is the substring of length `len(term) + 30`
starting at the match position, clipped at the end of the content. -/
theorem C2_plaintext_count_and_context (self : NightCrawler) (term content : Str)
    (hmode : self.use_link_lookup = false)
    (hlit : ∀ ch ∈ term, isRegexLiteralChar ch = true) :
    self.termCount term content =
      (selectNonOverlapping (patAdv (litPat term)) 0
        (occStarts (litPat term) content)).length ∧
    (∀ i ∈ finditerStarts (strToPat term) content, term <+: content.drop i) ∧
    self.termCount term content ≤ (occStarts (litPat term) content).length ∧
    (∀ w ∈ contextWindows term content,
      ∃ i ∈ finditerStarts (strToPat term) content,
        content.take i ++ w <+: content ∧
        w.length = min (term.length + STR_CONTEXT_SIZE) (content.length - i)) := by
  have hpat := strToPat_eq_litPat term hlit
  refine ⟨?_, ?_, ?_, ?_⟩
  · rw [NightCrawler.termCount, hpat, if_neg (by rw [hmode]; exact Bool.false_ne_true),
      finditer_eq_select]
  · intro i hi
    rw [hpat, finditer_eq_select] at hi
    have := select_subset _ _ _ _ hi
    exact ((occStarts_litPat_mem term content i).mp this).2
  · rw [NightCrawler.termCount, hpat, if_neg (by rw [hmode]; exact Bool.false_ne_true),
      finditer_eq_select]
    exact select_length_le _ _ _
  · intro w hw
    simp only [contextWindows, List.mem_map] at hw
    obtain ⟨i, hi, hwi⟩ := hw
    refine ⟨i, hi, ?_, ?_⟩
    · rw [← hwi, ← List.take_add]
      exact List.take_prefix _ _
    · rw [← hwi]
      simp [List.length_take, List.length_drop]

/-- Witness for the amended C2 at term `aa`, content `aaa`. -/
theorem C2_plaintext_witness :
    ((⟨"http://d".data, [("aa".data, 0)], false, 1⟩ : NightCrawler).use_link_lookup = false ∧
      ∀ ch ∈ "aa".data, isRegexLiteralChar ch = true) ∧
    ((⟨"http://d".data, [("aa".data, 0)], false, 1⟩ : NightCrawler).termCount "aa".data "aaa".data =
      (selectNonOverlapping (patAdv (litPat "aa".data)) 0
        (occStarts (litPat "aa".data) "aaa".data)).length ∧
    (∀ i ∈ finditerStarts (strToPat "aa".data) "aaa".data, "aa".data <+: "aaa".data.drop i) ∧
    (⟨"http://d".data, [("aa".data, 0)], false, 1⟩ : NightCrawler).termCount "aa".data "aaa".data ≤
      (occStarts (litPat "aa".data) "aaa".data).length ∧
    (∀ w ∈ contextWindows "aa".data "aaa".data,
      ∃ i ∈ finditerStarts (strToPat "aa".data) "aaa".data,
        "aaa".data.take i ++ w <+: "aaa".data ∧
        w.length = min ("aa".data.length + STR_CONTEXT_SIZE) ("aaa".data.length - i))) :=
  ⟨⟨by decide, by decide⟩,
    C2_plaintext_count_and_context (⟨"http://d".data, [("aa".data, 0)], false, 1⟩ : NightCrawler)
      "aa".data "aaa".data (by decide) (by decide)⟩

/-- **C6.** In link-lookup mode the count is the number of non-greedy
matches that start at an occurrence of the (metacharacter-free) term and
run up to, but not including, the next `'`, `"` or `#`; in scenario C the
two `promotion` links are captured as the full strings up to the closing
quote and the total excess at threshold 0 is 2. -/
theorem C6_link_mode (self : NightCrawler) (term content : Str)
    (hmode : self.use_link_lookup = true)
    (hlit : ∀ ch ∈ term, isRegexLiteralChar ch = true) :
    self.termCount term content = (linkFindall (litPat term) content).length ∧
    (∀ cap ∈ linkFindall (litPat term) content,
      ∃ mid, cap = term ++ mid ∧
        ∀ ch ∈ mid, ¬ ch = '\'' ∧ ¬ ch = '"' ∧ ¬ ch = '#') ∧
    linkFindall (strToPat "promotion".data) scenarioC_content =
      ["promotion/abc".data, "promotion/def".data] ∧
    scenarioC_crawler.total_count scenarioC_content = 2 := by
  have hpat := strToPat_eq_litPat term hlit
  refine ⟨?_, ?_, by decide, by decide⟩
  · rw [NightCrawler.termCount, hpat, if_pos hmode]
  · intro cap hcap
    obtain ⟨mid, hmid, hch⟩ := linkFindall_litPat_sound term content cap hcap
    refine ⟨mid, hmid, ?_⟩
    intro ch hch2
    have := (hch ch hch2).1
    simp only [linkTerminator, Bool.or_eq_false_iff, beq_eq_false_iff_ne, ne_eq] at this
    exact ⟨this.1.1, this.1.2, this.2⟩

/-- Witness for C6 at scenario C. -/
theorem C6_witness :
    (scenarioC_crawler.use_link_lookup = true ∧
      ∀ ch ∈ "promotion".data, isRegexLiteralChar ch = true) ∧
    (scenarioC_crawler.termCount "promotion".data scenarioC_content =
      (linkFindall (litPat "promotion".data) scenarioC_content).length ∧
    (∀ cap ∈ linkFindall (litPat "promotion".data) scenarioC_content,
      ∃ mid, cap = "promotion".data ++ mid ∧
        ∀ ch ∈ mid, ¬ ch = '\'' ∧ ¬ ch = '"' ∧ ¬ ch = '#') ∧
    linkFindall (strToPat "promotion".data) scenarioC_content =
      ["promotion/abc".data, "promotion/def".data] ∧
    scenarioC_crawler.total_count scenarioC_content = 2) :=
  ⟨⟨by decide, by decide⟩,
    C6_link_mode scenarioC_crawler "promotion".data scenarioC_content (by decide) (by decide)⟩

/-- **C7.** The children recursed into are exactly the `href="..."` and
`href='...'` attribute values of the raw content (terminated by the
matching quote or `#`), whitespace-trimmed, deduplicated (no duplicates
remain) and filtered through `is_useful_link`; a successfully fetched
page's call reduces to recursing over precisely that list (after scoring
and insertion); and in scenario A the only surviving link is `/about`. -/
theorem C7_discovered_children (self : NightCrawler) (web : Web) (content : Str)
    (fuel : Nat) (url0 : Str) (v : Visited) (l : Str)
    (hvis : Visited.hasUrl v (self.normalize url0) = false)
    (hfetch : fetchPage web (self.normalize url0) = some content) :
    (l ∈ self.pageLinks content ↔
      ((∃ raw ∈ extractHrefLinks content, l = pyStrip raw) ∧
        self.is_useful_link l = true)) ∧
    (self.pageLinks content).Nodup ∧
    check_page self web (fuel + 1) url0 v =
      ((check_pages self web fuel (self.pageLinks content)
          (v ++ [(self.normalize url0, self.total_count content)])).1,
        self.normalize url0 ::
          (check_pages self web fuel (self.pageLinks content)
            (v ++ [(self.normalize url0, self.total_count content)])).2) ∧
    scenarioA_crawler.pageLinks scenarioA_content = ["/about".data] := by
  refine ⟨?_, ?_, by simp [check_page, hvis, hfetch], by decide⟩
  · rw [NightCrawler.pageLinks, List.mem_filter, List.mem_dedup, List.mem_map]
    constructor
    · rintro ⟨⟨raw, hraw, hl⟩, huse⟩
      exact ⟨⟨raw, hraw, hl.symm⟩, huse⟩
    · rintro ⟨⟨raw, hraw, hl⟩, huse⟩
      exact ⟨⟨raw, hraw, hl.symm⟩, huse⟩
  · rw [NightCrawler.pageLinks]
    exact (List.nodup_dedup _).filter _

/-- Witness for C7: the scenario-A page fetched from a one-page web. -/
theorem C7_witness :
    (Visited.hasUrl []
        (scenarioA_crawler.normalize "http://my.base.domain".data) = false ∧
      fetchPage [("http://my.base.domain".data, scenarioA_content)]
        (scenarioA_crawler.normalize "http://my.base.domain".data) =
          some scenarioA_content) ∧
    (("/about".data ∈ scenarioA_crawler.pageLinks scenarioA_content ↔
      ((∃ raw ∈ extractHrefLinks scenarioA_content, "/about".data = pyStrip raw) ∧
        scenarioA_crawler.is_useful_link "/about".data = true)) ∧
    (scenarioA_crawler.pageLinks scenarioA_content).Nodup ∧
    check_page scenarioA_crawler [("http://my.base.domain".data, scenarioA_content)]
        (3 + 1) "http://my.base.domain".data [] =
      ((check_pages scenarioA_crawler [("http://my.base.domain".data, scenarioA_content)] 3
          (scenarioA_crawler.pageLinks scenarioA_content)
          ([] ++ [(scenarioA_crawler.normalize "http://my.base.domain".data,
            scenarioA_crawler.total_count scenarioA_content)])).1,
        scenarioA_crawler.normalize "http://my.base.domain".data ::
          (check_pages scenarioA_crawler [("http://my.base.domain".data, scenarioA_content)] 3
            (scenarioA_crawler.pageLinks scenarioA_content)
            ([] ++ [(scenarioA_crawler.normalize "http://my.base.domain".data,
              scenarioA_crawler.total_count scenarioA_content)])).2) ∧
    scenarioA_crawler.pageLinks scenarioA_content = ["/about".data]) :=
  ⟨⟨by decide, by decide⟩,
    C7_discovered_children scenarioA_crawler
      [("http://my.base.domain".data, scenarioA_content)] scenarioA_content 3
      "http://my.base.domain".data [] "/about".data (by decide) (by decide)⟩

/-- **C8 counterexample.** `URLS_CHECKED = {}` (line 40) is a class
attribute and `__init__` (lines 42-49) never touches it, so a second
`NightCrawler` instance constructed in the same process starts from the
first instance's visited set, not from an empty one: its crawl of the same
seed performs no fetch at all (the seed is skipped as already crawled),
whereas a crawl from an empty visited set does fetch the seed. -/
theorem C8_counterexample :
    c8_second.2 ≠ ([] : Visited) ∧
    (c8_second.1.crawl c8_web 5 c8_second.2).2 = ([] : List Str) ∧
    (c8_second.1.crawl c8_web 5 []).2 = ["http://d".data] := by decide

/-- **C8 (amended).** The visited set is process-wide class-level state
rather than per-instance state: `__init__` hands each new instance the
current class attribute unchanged, and a crawl by a new instance skips the
seed whenever an earlier instance already recorded it.  (Only in the CLI
usage of one instance per process does its lifetime coincide with one
crawl run.) -/
theorem C8_shared_class_state (bd : Str) (terms : List (Str × Int)) (link : Bool)
    (lvl : Int) (prior : Visited) (web : Web) (fuel : Nat)
    (h : Visited.hasUrl prior
        ((NightCrawler.newInstance bd terms link lvl prior).1.normalize
          (NightCrawler.newInstance bd terms link lvl prior).1.base_domain) = true) :
    (NightCrawler.newInstance bd terms link lvl prior).2 = prior ∧
    (NightCrawler.newInstance bd terms link lvl prior).1.crawl web fuel prior =
      (prior, []) := by
  refine ⟨rfl, ?_⟩
  rw [NightCrawler.crawl]
  cases fuel with
  | zero => rfl
  | succ fuel => simp [check_page, h]

/-- Witness for the amended C8 at the concrete two-instance scenario. -/
theorem C8_witness :
    (Visited.hasUrl c8_after_run1
        ((NightCrawler.newInstance "http://d".data [("x".data, 0)] false 1
            c8_after_run1).1.normalize
          (NightCrawler.newInstance "http://d".data [("x".data, 0)] false 1
            c8_after_run1).1.base_domain) = true) ∧
    ((NightCrawler.newInstance "http://d".data [("x".data, 0)] false 1
        c8_after_run1).2 = c8_after_run1 ∧
      (NightCrawler.newInstance "http://d".data [("x".data, 0)] false 1
          c8_after_run1).1.crawl c8_web 7 c8_after_run1 = (c8_after_run1, [])) :=
  ⟨by decide,
    C8_shared_class_state "http://d".data [("x".data, 0)] false 1 c8_after_run1
      c8_web 7 (by decide)⟩

/-- **C10.** Both matching modes interpolate the term unescaped into the
regular expression.  For a term of regex-literal characters the plain-text
count is the number of non-overlapping literal occurrences (leftmost
scanning) and the link count is the number of literal link matches; for a
term containing the `.` metacharacter the count follows pattern semantics:
`promotion.domain.com` matches once inside `promotion-domain-com`, which
contains no literal occurrence of the term at all. -/
theorem C10_unescaped_interpolation (term content : Str)
    (hlit : ∀ ch ∈ term, isRegexLiteralChar ch = true) :
    (∀ self : NightCrawler, self.use_link_lookup = false →
        self.termCount term content = (finditerStarts (litPat term) content).length) ∧
    (∀ self : NightCrawler, self.use_link_lookup = true →
        self.termCount term content = (linkFindall (litPat term) content).length) ∧
    finditerStarts (litPat term) content =
      selectNonOverlapping (patAdv (litPat term)) 0 (occStarts (litPat term) content) ∧
    (∀ i, i ∈ occStarts (litPat term) content ↔
        i ≤ content.length ∧ term <+: content.drop i) ∧
    ((⟨"http://d".data, [("promotion.domain.com".data, 0)], false, 1⟩ : NightCrawler).termCount
        "promotion.domain.com".data "promotion-domain-com".data = 1 ∧
      occStarts (litPat "promotion.domain.com".data) "promotion-domain-com".data = []) := by
  have hpat := strToPat_eq_litPat term hlit
  refine ⟨?_, ?_, finditer_eq_select _ _,
    fun i => occStarts_litPat_mem term content i, by decide, by decide⟩
  · intro self hmode
    rw [NightCrawler.termCount, hpat, if_neg (by rw [hmode]; exact Bool.false_ne_true)]
  · intro self hmode
    rw [NightCrawler.termCount, hpat, if_pos hmode]

/-- Witness for C10 with the regex-literal term `promotion`. -/
theorem C10_witness :
    (∀ ch ∈ "promotion".data, isRegexLiteralChar ch = true) ∧
    ((∀ self : NightCrawler, self.use_link_lookup = false →
        self.termCount "promotion".data "promotion-domain-com".data =
          (finditerStarts (litPat "promotion".data) "promotion-domain-com".data).length) ∧
    (∀ self : NightCrawler, self.use_link_lookup = true →
        self.termCount "promotion".data "promotion-domain-com".data =
          (linkFindall (litPat "promotion".data) "promotion-domain-com".data).length) ∧
    finditerStarts (litPat "promotion".data) "promotion-domain-com".data =
      selectNonOverlapping (patAdv (litPat "promotion".data)) 0
        (occStarts (litPat "promotion".data) "promotion-domain-com".data) ∧
    (∀ i, i ∈ occStarts (litPat "promotion".data) "promotion-domain-com".data ↔
        i ≤ "promotion-domain-com".data.length ∧
          "promotion".data <+: "promotion-domain-com".data.drop i) ∧
    ((⟨"http://d".data, [("promotion.domain.com".data, 0)], false, 1⟩ : NightCrawler).termCount
        "promotion.domain.com".data "promotion-domain-com".data = 1 ∧
      occStarts (litPat "promotion.domain.com".data) "promotion-domain-com".data = [])) :=
  ⟨by decide,
    C10_unescaped_interpolation "promotion".data "promotion-domain-com".data (by decide)⟩
